import Mathlib

/-!
Verification of the frame-sampling → classification → smoothing → alerting
pipeline of the terra-civitas repository, against its design document.

The Python sources are shallowly embedded: machine floats become exact
rationals (ℚ), numpy element-wise array arithmetic becomes List.zipWith,
`collections.deque(maxlen=W)` becomes a list with an explicit bounded
append, Python exceptions become `Except` values, and a Python generator
is split into its call (which executes no body code) and a function that
runs the suspended body to exhaustion.
-/

namespace TerraCivitas

/-! ## src/ml/smoothing.py -/

/-- State of `smoothing.EMA`: `alpha`, the running vector `ema`
(initially `np.zeros(num_classes)`), and the `initialized` flag. -/
structure EMA where
  alpha : ℚ
  ema : List ℚ
  initialized : Bool
deriving DecidableEq

/-- `EMA.__init__(alpha, num_classes)`. -/
def EMA.init (alpha : ℚ) (num_classes : ℕ) : EMA :=
  ⟨alpha, List.replicate num_classes 0, false⟩

/-- `EMA.update(probs)`: on the first call store `probs` and return it;
afterwards `ema = alpha * probs + (1 - alpha) * ema` element-wise
(numpy array arithmetic), returned as well as stored.  Returns the new
state together with the returned vector. -/
def EMA.update (s : EMA) (probs : List ℚ) : EMA × List ℚ :=
  if s.initialized = false then
    (⟨s.alpha, probs, true⟩, probs)
  else
    let newEma := List.zipWith (fun x y => s.alpha * x + (1 - s.alpha) * y) probs s.ema
    (⟨s.alpha, newEma, true⟩, newEma)

/-- Feed a sequence of observations through `EMA.update`, collecting the
returned vectors. -/
def EMA.run (s : EMA) : List (List ℚ) → EMA × List (List ℚ)
  | [] => (s, [])
  | v :: vs =>
    let r := s.update v
    let rest := r.1.run vs
    (rest.1, r.2 :: rest.2)

/-- State of `smoothing.MajorityVote`: the window size and the contents of
`deque(maxlen=window_size)`, oldest first. -/
structure MajorityVote where
  window_size : ℕ
  queue : List ℤ
deriving DecidableEq

/-- `MajorityVote.__init__(window_size)`. -/
def MajorityVote.init (window_size : ℕ) : MajorityVote :=
  ⟨window_size, []⟩

/-- `deque(maxlen).append(x)`: append on the right, evicting from the left
whatever exceeds the capacity. -/
def dequeAppend (maxlen : ℕ) (q : List ℤ) (x : ℤ) : List ℤ :=
  if maxlen < (q ++ [x]).length then (q ++ [x]).drop ((q ++ [x]).length - maxlen)
  else q ++ [x]

/-- Left fold of `max(..., key=self.queue.count)`: keep the current best,
replacing it only when a later candidate has a strictly higher count
(Python's `max` keeps the earliest maximal element of the iteration). -/
def voteAux (q : List ℤ) : ℤ → List ℤ → ℤ
  | b, [] => b
  | b, y :: ys => voteAux q (if q.count b < q.count y then y else b) ys

/-- `max(set(self.queue), key=self.queue.count)`.  CPython iterates the set
in a hash-table order that is an implementation artifact; the embedding
iterates the distinct labels in first-occurrence order (`dedup`).  Every
property proved below about the result (membership and count-maximality)
holds for any iteration order.  Python's `max` raises on an empty set; the
`0` returned here for an empty queue is unreachable after an append. -/
def MajorityVote.vote (q : List ℤ) : ℤ :=
  match q.dedup with
  | [] => 0
  | x :: xs => voteAux q x xs

/-- `MajorityVote.update(label)`: append to the bounded deque, then return
the majority label of the current history. -/
def MajorityVote.update (s : MajorityVote) (label : ℤ) : MajorityVote × ℤ :=
  let q := dequeAppend s.window_size s.queue label
  (⟨s.window_size, q⟩, MajorityVote.vote q)

/-- Feed a sequence of labels through `MajorityVote.update`, collecting the
returned majority labels. -/
def MajorityVote.run (s : MajorityVote) : List ℤ → MajorityVote × List ℤ
  | [] => (s, [])
  | l :: ls =>
    let r := s.update l
    let rest := r.1.run ls
    (rest.1, r.2 :: rest.2)

/-! ## src/ml/video_io.py -/

/-- The exceptions `iter_frames` can raise, in source order:
`RuntimeError("Video file not found: ...")`,
`ValueError("fps_out must be greater than 0")`,
`RuntimeError("Failed to open video source: ...")`, and the
`ZeroDivisionError` produced by `count % frame_interval` when the computed
interval is zero. -/
inductive VideoErr where
  | fileNotFound
  | invalidFps
  | openFailed
  | zeroDivision
deriving DecidableEq

/-- Environment of one `iter_frames(source, fps_out)` call: whether
`os.path.exists(source)` holds, the `fps_out` argument, whether
`cv2.VideoCapture(source).isOpened()`, the frame rate reported by
`cap.get(cv2.CAP_PROP_FPS)`, and the number of frames `cap.read()` can
decode before returning `ret == False`. -/
structure GenHandle where
  pathExists : Bool
  fps_out : ℤ
  opens : Bool
  reportedFps : ℚ
  frames : ℕ
deriving DecidableEq

/-- Python `round` on an exact value: nearest integer, halves to even. -/
def pyRound (q : ℚ) : ℤ :=
  if q - ⌊q⌋ < 1 / 2 then ⌊q⌋
  else if 1 / 2 < q - ⌊q⌋ then ⌊q⌋ + 1
  else if ⌊q⌋ % 2 = 0 then ⌊q⌋ else ⌊q⌋ + 1

/-- `cap.get(cv2.CAP_PROP_FPS) or 30` followed by the `orig_fps <= 0`
fallback: a non-positive reported rate becomes 30. -/
def origFps (reported : ℚ) : ℚ :=
  if reported ≤ 0 then 30 else reported

/-- `frame_interval = int(round(orig_fps / fps_out))`. -/
def frameInterval (reported : ℚ) (fps_out : ℤ) : ℤ :=
  pyRound (origFps reported / (fps_out : ℚ))

/-- Calling `video_io.iter_frames(source, fps_out)`.  The body contains
`yield` (line 43), so the call builds a suspended generator and executes
none of the body: no validation runs and no exception can escape at the
point of the call.  The handle records the call's arguments and the
source's environment; errors surface only when the generator is first
advanced (see `iter_frames_run`). -/
def iter_frames (pathExists : Bool) (fps_out : ℤ) (opens : Bool)
    (reportedFps : ℚ) (frames : ℕ) : Except VideoErr GenHandle :=
  .ok ⟨pathExists, fps_out, opens, reportedFps, frames⟩

/-- Running the suspended body of `iter_frames` to exhaustion: the result
(the indices of the decoded frames that were yielded, or the exception
raised), paired with the number of frames successfully decoded by
`cap.read()` before the outcome was reached. -/
def iter_frames_run (g : GenHandle) : Except VideoErr (List ℕ) × ℕ :=
  if g.pathExists = false then (.error .fileNotFound, 0)
  else if g.fps_out ≤ 0 then (.error .invalidFps, 0)
  else if g.opens = false then (.error .openFailed, 0)
  else
    let k := frameInterval g.reportedFps g.fps_out
    if k = 0 then
      if g.frames = 0 then (.ok [], 0) else (.error .zeroDivision, 1)
    else
      (.ok ((List.range g.frames).filter (fun c => c % k.toNat == 0)), g.frames)

/-! ## src/ml/inference.py -/

/-- Python exception values, as type plus `str(e)` message. -/
inductive PyExc where
  | valueError (msg : String)
  | runtimeError (msg : String)
deriving DecidableEq

/-- `str(e)` of an exception. -/
def PyExc.msg : PyExc → String
  | .valueError m => m
  | .runtimeError m => m

/-- The aspects of a `np.ndarray` argument that `predict_frame` inspects:
whether it is `None`, and its `size`. -/
structure PyFrame where
  isNone : Bool
  size : ℕ
deriving DecidableEq

/-- Body of the `try` block of `predict_frame(frame)`: the degenerate-input
check raises `ValueError("Frame is empty or None")` before anything else;
otherwise the conversion / processor / model / softmax / top-k chain runs
(an external torch computation, represented by its outcome `forward`).
The boolean records whether the model forward evaluation was reached. -/
def predict_frame_body (frame : PyFrame) (forward : Except PyExc (List ℚ)) :
    Except PyExc (List ℚ) × Bool :=
  if frame.isNone = true ∨ frame.size = 0 then
    (.error (.valueError "Frame is empty or None"), false)
  else
    (forward, true)

/-- `predict_frame(frame)`: the `try` body, with every exception it raises
caught by `except Exception as e` and re-raised as
`RuntimeError(f"Prediction failed: {e}")`. -/
def predict_frame (frame : PyFrame) (forward : Except PyExc (List ℚ)) :
    Except PyExc (List ℚ) × Bool :=
  match predict_frame_body frame forward with
  | (.ok r, b) => (.ok r, b)
  | (.error e, b) => (.error (.runtimeError ("Prediction failed: " ++ e.msg)), b)

/-- `softmax(logits)` over exact values, with the exponential left abstract
(`expf`); torch guarantees only that it is strictly positive. -/
def softmax (expf : ℚ → ℚ) (logits : List ℚ) : List ℚ :=
  let exps := logits.map expf
  exps.map (fun x => x / exps.sum)

/-- Fold selecting the largest value of an (index, value) list, keeping the
earlier element on ties, as `torch.topk` does. -/
def bestPair (p : ℕ × ℚ) : List (ℕ × ℚ) → ℕ × ℚ
  | [] => p
  | q :: qs => bestPair (if p.2 < q.2 then q else p) qs

/-- Remove the first occurrence of `b` from `l`. -/
def eraseFirst (l : List (ℕ × ℚ)) (b : ℕ × ℚ) : List (ℕ × ℚ) :=
  match l with
  | [] => []
  | x :: xs => if x = b then xs else x :: eraseFirst xs b

/-- `torch.topk(p, k)`: the `k` largest (index, value) pairs, selected by
repeated extraction of the maximum. -/
def topk : ℕ → List (ℕ × ℚ) → List (ℕ × ℚ)
  | 0, _ => []
  | _ + 1, [] => []
  | k + 1, q :: qs =>
    let b := bestPair q qs
    b :: topk k (eraseFirst (q :: qs) b)

/-- `predict_batch(frames, top_k)`, success path, acting on the per-frame
logit rows produced by the batched forward evaluation (the torch model is
external; it maps frame `i` to row `i`):  an empty batch short-circuits to
`[]`; otherwise each row is softmax-normalized and truncated to its
`min(top_k, len(p))` most probable (label-index, probability) pairs, in
input order. -/
def predict_batch (expf : ℚ → ℚ) (logitRows : List (List ℚ)) (top_k : ℕ) :
    List (List (ℕ × ℚ)) :=
  if logitRows = [] then []
  else
    logitRows.map (fun row =>
      let p := softmax expf row
      topk (min top_k p.length) p.enum)

/-! ## AlertDecider (spec §4.5) -/

/-- `AlertState`: consecutive-streak count, tracked label, fired flag. -/
structure AlertState where
  streak : ℕ
  tracked : Option ℤ
  fired : Bool
deriving DecidableEq

/-- Initial state: Idle, streak 0, no tracked label. -/
def AlertState.initial : AlertState := ⟨0, none, false⟩

/-- Modelled from the spec: the repository has no AlertDecider
implementation under src/ (only the configuration defaults
`THRESHOLD = 0.7` and `CONSECUTIVE = 3` in core/config.py), so this
transition function follows §4.5 of the design document word for word.
A qualifying observation (label matches the tracked label or none is
tracked yet, confidence ≥ THRESHOLD) increments the streak and tracks the
label; on reaching CONSECUTIVE with no alert yet emitted for this streak,
one Alert is emitted and the state becomes Fired; further qualifying
observations do not re-emit; a disqualifying observation resets to Idle
with streak 0 (the spec's recommended policy). -/
def alertUpdate (thr : ℚ) (consec : ℕ) (s : AlertState) (label : ℤ) (conf : ℚ) :
    AlertState × Bool :=
  if (s.tracked = none ∨ s.tracked = some label) ∧ thr ≤ conf then
    if consec ≤ s.streak + 1 ∧ s.fired = false then
      (⟨s.streak + 1, some label, true⟩, true)
    else
      (⟨s.streak + 1, some label, s.fired⟩, false)
  else
    (⟨0, none, false⟩, false)

/-- Feed a sequence of (label, confidence) observations through
`alertUpdate`, collecting the emission flags. -/
def alertRun (thr : ℚ) (consec : ℕ) (s : AlertState) :
    List (ℤ × ℚ) → AlertState × List Bool
  | [] => (s, [])
  | o :: os =>
    let r := alertUpdate thr consec s o.1 o.2
    let rest := alertRun thr consec r.1 os
    (rest.1, r.2 :: rest.2)

/-! ## Helper lemmas -/

theorem voteAux_mem (q : List ℤ) (ys : List ℤ) : ∀ b, voteAux q b ys ∈ b :: ys := by
  induction ys with
  | nil => intro b; simp [voteAux]
  | cons y ys ih =>
    intro b
    have h := ih (if q.count b < q.count y then y else b)
    have he : voteAux q b (y :: ys) = voteAux q (if q.count b < q.count y then y else b) ys := rfl
    rw [he]
    rcases List.mem_cons.mp h with h1 | h1
    · rw [h1]
      split
      · exact List.mem_cons_of_mem _ (List.mem_cons_self _ _)
      · exact List.mem_cons_self _ _
    · exact List.mem_cons_of_mem _ (List.mem_cons_of_mem _ h1)

theorem voteAux_count (q : List ℤ) (ys : List ℤ) :
    ∀ b z, z ∈ b :: ys → q.count z ≤ q.count (voteAux q b ys) := by
  induction ys with
  | nil =>
    intro b z hz
    have : z = b := by simpa using hz
    subst this
    simp [voteAux]
  | cons y ys ih =>
    intro b z hz
    have he : voteAux q b (y :: ys) = voteAux q (if q.count b < q.count y then y else b) ys := rfl
    rw [he]
    by_cases hc : q.count b < q.count y
    · rw [if_pos hc]
      rcases List.mem_cons.mp hz with h1 | h1
      · subst h1
        exact le_trans (le_of_lt hc) (ih y y (List.mem_cons_self _ _))
      · exact ih y z h1
    · rw [if_neg hc]
      rcases List.mem_cons.mp hz with h1 | h1
      · subst h1
        exact ih _ _ (List.mem_cons_self _ _)
      · rcases List.mem_cons.mp h1 with h2 | h2
        · subst h2
          exact le_trans (not_lt.mp hc) (ih _ _ (List.mem_cons_self _ _))
        · exact ih _ _ (List.mem_cons_of_mem _ h2)

theorem vote_mem (q : List ℤ) (hq : q ≠ []) : MajorityVote.vote q ∈ q := by
  cases hdd : q.dedup with
  | nil => exact absurd ((List.dedup_eq_nil q).mp hdd) hq
  | cons x xs =>
    have h := voteAux_mem q xs x
    have hmem : voteAux q x xs ∈ q.dedup := hdd ▸ h
    have hv : MajorityVote.vote q = voteAux q x xs := by simp [MajorityVote.vote, hdd]
    rw [hv]
    exact List.mem_dedup.mp hmem

theorem vote_count (q : List ℤ) (z : ℤ) (hz : z ∈ q) :
    q.count z ≤ q.count (MajorityVote.vote q) := by
  have hzd : z ∈ q.dedup := List.mem_dedup.mpr hz
  cases hdd : q.dedup with
  | nil => rw [hdd] at hzd; simp at hzd
  | cons x xs =>
    have hv : MajorityVote.vote q = voteAux q x xs := by simp [MajorityVote.vote, hdd]
    rw [hv]
    exact voteAux_count q xs x z (hdd ▸ hzd)

theorem dequeAppend_length (W : ℕ) (q : List ℤ) (x : ℤ) :
    (dequeAppend W q x).length = min W (q.length + 1) := by
  unfold dequeAppend
  split <;> simp_all <;> omega

theorem dequeAppend_drop (W : ℕ) (p : List ℤ) (x : ℤ) :
    dequeAppend W (p.drop (p.length - W)) x
      = (p ++ [x]).drop ((p ++ [x]).length - W) := by
  have hq0 : (p.drop (p.length - W)).length = p.length - (p.length - W) :=
    List.length_drop _ _
  by_cases hWp : W ≤ p.length
  · have hq0W : (p.drop (p.length - W)).length = W := by omega
    have hcond : W < (p.drop (p.length - W) ++ [x]).length := by
      simp [hq0W]
    unfold dequeAppend
    rw [if_pos hcond]
    have hr : (p.drop (p.length - W) ++ [x]).length - W = 1 := by simp [hq0W]
    rw [hr]
    by_cases hW0 : W = 0
    · subst hW0
      simp
    · rw [List.drop_append_of_le_length (by omega : 1 ≤ (p.drop (p.length - W)).length)]
      rw [List.drop_drop]
      have h2 : (p ++ [x]).length - W = p.length + 1 - W := by simp
      rw [h2, List.drop_append_of_le_length (by omega : p.length + 1 - W ≤ p.length)]
      congr 2
      omega
  · have hq0p : p.drop (p.length - W) = p := by
      have h0 : p.length - W = 0 := by omega
      simp [h0]
    unfold dequeAppend
    rw [hq0p]
    rw [if_neg (by simp; omega)]
    have h0 : (p ++ [x]).length - W = 0 := by simp; omega
    rw [h0, List.drop_zero]

theorem foldl_dequeAppend (W : ℕ) (ls : List ℤ) :
    ∀ p : List ℤ, List.foldl (dequeAppend W) (p.drop (p.length - W)) ls
      = (p ++ ls).drop ((p ++ ls).length - W) := by
  induction ls with
  | nil => intro p; simp
  | cons x t ih =>
    intro p
    rw [List.foldl_cons, dequeAppend_drop W p x, ih (p ++ [x])]
    simp

theorem mv_run_state (ls : List ℤ) :
    ∀ W q, ((⟨W, q⟩ : MajorityVote).run ls).1 = ⟨W, List.foldl (dequeAppend W) q ls⟩ := by
  induction ls with
  | nil => intro W q; simp [MajorityVote.run]
  | cons x t ih =>
    intro W q
    simp only [MajorityVote.run, MajorityVote.update]
    exact ih W (dequeAppend W q x)

/-! ## Claim theorems -/

/-- Claim C1: the first `EMA.update(v0)` stores `v0` verbatim, marks the
smoother initialized and returns `v0` unchanged; every later call returns
`alpha * v + (1 - alpha) * previous_EMA` element-wise, and the stored
state after the call equals the returned vector. -/
theorem ema_update_spec (a : ℚ) (n : ℕ) (v w : List ℚ) (s : EMA)
    (hs : s.initialized = true) :
    (EMA.init a n).update v = (⟨a, v, true⟩, v)
  ∧ (s.update w).2 = List.zipWith (fun x y => s.alpha * x + (1 - s.alpha) * y) w s.ema
  ∧ (s.update w).1.ema = (s.update w).2
  ∧ (s.update w).1.initialized = true := by
  refine ⟨?_, ?_, ?_, ?_⟩ <;> simp [EMA.init, EMA.update, hs]

/-- Witness for C1 at `alpha = 1/2`, a fresh smoother and an initialized
one. -/
theorem ema_update_spec_witness :
    (EMA.init (1/2) 2).update [1, 0] = (⟨1/2, [1, 0], true⟩, [1, 0])
  ∧ ((⟨1/2, [1, 0], true⟩ : EMA).update [0, 1]).2
      = List.zipWith (fun x y => (1:ℚ)/2 * x + (1 - 1/2) * y) [0, 1] [1, 0]
  ∧ ((⟨1/2, [1, 0], true⟩ : EMA).update [0, 1]).1.ema
      = ((⟨1/2, [1, 0], true⟩ : EMA).update [0, 1]).2
  ∧ ((⟨1/2, [1, 0], true⟩ : EMA).update [0, 1]).1.initialized = true :=
  ema_update_spec (1/2) 2 [1, 0] [0, 1] ⟨1/2, [1, 0], true⟩ rfl

/-- Claim C2: `MajorityVote.update` keeps exactly the last `min(n, W)`
labels in FIFO order, returns a label of maximal occurrence count in the
current history, the final result of `[1,1,1,2,2]` with window 5 is `1`,
and five updates into window 3 leave exactly the last three labels. -/
theorem majority_vote_spec (W : ℕ) (ls : List ℤ) (s : MajorityVote) (l y : ℤ)
    (hW : 1 ≤ W) (hsW : 1 ≤ s.window_size)
    (hy : y ∈ (s.update l).1.queue) :
    ((MajorityVote.init W).run ls).1.queue = ls.drop (ls.length - W)
  ∧ (s.update l).2 ∈ (s.update l).1.queue
  ∧ ((s.update l).1.queue).count y ≤ ((s.update l).1.queue).count ((s.update l).2)
  ∧ (((MajorityVote.init 5).run [1, 1, 1, 2, 2]).2).getLast? = some 1
  ∧ ((MajorityVote.init 3).run [0, 1, 2, 3, 4]).1.queue = [2, 3, 4] := by
  have hqne : (s.update l).1.queue ≠ [] := by
    have hlen : ((s.update l).1.queue).length = min s.window_size (s.queue.length + 1) := by
      simp only [MajorityVote.update]
      exact dequeAppend_length _ _ _
    intro hnil
    rw [hnil] at hlen
    simp at hlen
    omega
  refine ⟨?_, ?_, ?_, ?_, ?_⟩
  · have h0 : (MajorityVote.init W) = (⟨W, []⟩ : MajorityVote) := rfl
    rw [h0, mv_run_state]
    have h := foldl_dequeAppend W ls []
    simpa using h
  · simp only [MajorityVote.update]
    exact vote_mem _ (by simpa [MajorityVote.update] using hqne)
  · simp only [MajorityVote.update]
    exact vote_count _ _ (by simpa [MajorityVote.update] using hy)
  · decide
  · decide

/-- Witness for C2 at window 5, the sequence `[1,1,1,2,2]`, and one update
of the state `⟨3, [1, 2]⟩`. -/
theorem majority_vote_spec_witness :
    ((MajorityVote.init 5).run [1, 1, 1, 2, 2]).1.queue
        = [1, 1, 1, 2, 2].drop ([1, 1, 1, 2, 2].length - 5)
  ∧ ((⟨3, [1, 2]⟩ : MajorityVote).update 2).2 ∈ ((⟨3, [1, 2]⟩ : MajorityVote).update 2).1.queue
  ∧ (((⟨3, [1, 2]⟩ : MajorityVote).update 2).1.queue).count 2
      ≤ (((⟨3, [1, 2]⟩ : MajorityVote).update 2).1.queue).count
          (((⟨3, [1, 2]⟩ : MajorityVote).update 2).2)
  ∧ (((MajorityVote.init 5).run [1, 1, 1, 2, 2]).2).getLast? = some 1
  ∧ ((MajorityVote.init 3).run [0, 1, 2, 3, 4]).1.queue = [2, 3, 4] :=
  majority_vote_spec 5 [1, 1, 1, 2, 2] ⟨3, [1, 2]⟩ 2 2
    (by decide) (by decide) (by decide)

/-- Claim C8: the output sequence of the EMA smoother is a deterministic
function of `alpha` and the inputs seen so far: two uninitialized
smoothers with the same `alpha` (even with different `num_classes`
zero-vectors) produce identical output sequences on the same inputs. -/
theorem ema_run_deterministic (s1 s2 : EMA) (xs : List (List ℚ))
    (ha : s1.alpha = s2.alpha)
    (h1 : s1.initialized = false) (h2 : s2.initialized = false) :
    (s1.run xs).2 = (s2.run xs).2 := by
  cases xs with
  | nil => simp [EMA.run]
  | cons v vs =>
    have e1 : s1.update v = (⟨s2.alpha, v, true⟩, v) := by
      simp [EMA.update, h1, ha]
    have e2 : s2.update v = (⟨s2.alpha, v, true⟩, v) := by
      simp [EMA.update, h2]
    simp [EMA.run, e1, e2]

/-- Witness for C8: two fresh smoothers with `alpha = 1/2` but different
`num_classes` give identical outputs on a two-step input sequence. -/
theorem ema_run_deterministic_witness :
    ((EMA.init (1/2) 3).run [[1, 0], [0, 1]]).2
      = ((EMA.init (1/2) 5).run [[1, 0], [0, 1]]).2 :=
  ema_run_deterministic (EMA.init (1/2) 3) (EMA.init (1/2) 5)
    [[1, 0], [0, 1]] rfl rfl rfl

/-- Claim C7 (AlertDecider modelled from spec §4.5, absent from src/):
with THRESHOLD 0.7 and CONSECUTIVE 3, the confidence sequence
`[0.9, 0.8, 0.75]` for one label emits exactly one Alert, on the third
observation and none before it; and a Fired state never re-emits on a
further qualifying observation of the tracked label. -/
theorem alert_decider_spec (lab : ℤ) (thr : ℚ) (consec : ℕ) (s : AlertState)
    (l : ℤ) (c : ℚ) (hf : s.fired = true) (hl : s.tracked = some l)
    (hc : thr ≤ c) :
    (alertRun (7/10) 3 AlertState.initial
        [(lab, 9/10), (lab, 8/10), (lab, 3/4)]).2 = [false, false, true]
  ∧ (alertUpdate thr consec s l c).2 = false := by
  constructor
  · norm_num [alertRun, alertUpdate, AlertState.initial]
  · simp [alertUpdate, hl, hc, hf]

/-- Witness for C7 at label 0 and a Fired state tracking label 2. -/
theorem alert_decider_spec_witness :
    (alertRun (7/10) 3 AlertState.initial
        [(0, 9/10), (0, 8/10), (0, 3/4)]).2 = [false, false, true]
  ∧ (alertUpdate (7/10) 3 ⟨3, some 2, true⟩ 2 1).2 = false :=
  alert_decider_spec 0 (7/10) 3 ⟨3, some 2, true⟩ 2 1 rfl rfl (by norm_num)

/-- Counterexample to claim C3 as stated: it quantifies over every target
rate `F > 0`, but at native rate 30 and `fps_out = 60` the computed
interval `int(round(30/60))` is 0 (Python rounds halves to even), so the
first `count % frame_interval` raises ZeroDivisionError and no frame
index sequence is produced at all. -/
theorem iter_frames_sampling_cx :
    frameInterval 30 60 = 0
  ∧ iter_frames_run ⟨true, 60, true, 30, 2⟩ = (.error .zeroDivision, 1)
  ∧ (iter_frames_run ⟨true, 60, true, 30, 2⟩).1 ≠ Except.ok [0] := by
  have h : frameInterval 30 60 = 0 := by
    norm_num [frameInterval, origFps, pyRound]
  refine ⟨h, by simp [iter_frames_run, h], by simp [iter_frames_run, h]⟩

/-- Claim C3 (amended: provided the computed interval `round(R/F)` is at
least 1): the yielded frame indices are exactly the multiples of
`round(R/F)` below the source length, and with native rate 30 and
`target_fps = 2` they are 0, 15, 30. -/
theorem iter_frames_sampling (R : ℚ) (F : ℤ) (n : ℕ) (hF : 0 < F)
    (hk : 1 ≤ frameInterval R F) :
    iter_frames_run ⟨true, F, true, R, n⟩
        = (.ok ((List.range n).filter (fun c => c % (frameInterval R F).toNat == 0)), n)
  ∧ (∀ i : ℕ, i ∈ (List.range n).filter (fun c => c % (frameInterval R F).toNat == 0)
        ↔ i < n ∧ (frameInterval R F).toNat ∣ i)
  ∧ iter_frames_run ⟨true, 2, true, 30, 31⟩ = (.ok [0, 15, 30], 31) := by
  have h1 : ¬ (F ≤ 0) := not_le.mpr hF
  have h2 : frameInterval R F ≠ 0 := by omega
  refine ⟨by simp [iter_frames_run, h1, h2], ?_, ?_⟩
  · intro i
    have hpos : 0 < (frameInterval R F).toNat := by omega
    simp only [List.mem_filter, List.mem_range, beq_iff_eq]
    constructor
    · rintro ⟨hin, hmod⟩
      exact ⟨hin, (Nat.dvd_iff_mod_eq_zero).mpr hmod⟩
    · rintro ⟨hin, hdvd⟩
      exact ⟨hin, (Nat.dvd_iff_mod_eq_zero).mp hdvd⟩
  · have hfi : frameInterval 30 2 = 15 := by
      norm_num [frameInterval, origFps, pyRound]
    simp only [iter_frames_run, hfi]
    norm_num
    decide

/-- Witness for C3 (amended) at native rate 30, `target_fps = 2` and a
31-frame source. -/
theorem iter_frames_sampling_witness :
    iter_frames_run ⟨true, 2, true, 30, 31⟩
        = (.ok ((List.range 31).filter (fun c => c % (frameInterval 30 2).toNat == 0)), 31)
  ∧ (15 ∈ (List.range 31).filter (fun c => c % (frameInterval 30 2).toNat == 0)
        ↔ 15 < 31 ∧ (frameInterval 30 2).toNat ∣ 15)
  ∧ iter_frames_run ⟨true, 2, true, 30, 31⟩ = (.ok [0, 15, 30], 31) :=
  have h := iter_frames_sampling 30 2 31 (by norm_num)
    (by norm_num [frameInterval, origFps, pyRound])
  ⟨h.1, h.2.1 15, h.2.2⟩

/-- Counterexample to claim C4 as stated: calling `iter_frames` with
`fps_out = 0` does not fail at the point of the call — the body is a
generator, so the call returns a suspended generator and the
InvalidConfiguration error surfaces only on the first iteration step. -/
theorem iter_frames_validation_cx :
    iter_frames true 0 true 30 5 = Except.ok ⟨true, 0, true, 30, 5⟩
  ∧ iter_frames_run ⟨true, 0, true, 30, 5⟩ = (.error .invalidFps, 0) := by
  exact ⟨rfl, by simp [iter_frames_run]⟩

/-- Claim C4 (amended: the checks run on the first iteration step, not at
the point of the call): the generator call itself never raises, and on
first iteration a non-positive `fps_out` raises the InvalidConfiguration
error (ValueError) and an absent or unopenable source raises the
SourceUnavailable error (RuntimeError), in every case before any frame is
decoded. -/
theorem iter_frames_validation (pE op : Bool) (F Fb : ℤ) (R : ℚ) (n : ℕ)
    (hFb : Fb ≤ 0) (hF : 0 < F) :
    iter_frames pE Fb op R n = Except.ok ⟨pE, Fb, op, R, n⟩
  ∧ iter_frames_run ⟨true, Fb, op, R, n⟩ = (.error .invalidFps, 0)
  ∧ iter_frames_run ⟨false, F, op, R, n⟩ = (.error .fileNotFound, 0)
  ∧ iter_frames_run ⟨true, F, false, R, n⟩ = (.error .openFailed, 0) := by
  have h1 : ¬ (F ≤ 0) := not_le.mpr hF
  exact ⟨rfl, by simp [iter_frames_run, hFb], by simp [iter_frames_run],
    by simp [iter_frames_run, h1]⟩

/-- Witness for C4 (amended) at `fps_out = 0` (bad) and `fps_out = 2`
(good). -/
theorem iter_frames_validation_witness :
    iter_frames true 0 true 30 5 = Except.ok ⟨true, 0, true, 30, 5⟩
  ∧ iter_frames_run ⟨true, 0, true, 30, 5⟩ = (.error .invalidFps, 0)
  ∧ iter_frames_run ⟨false, 2, true, 30, 5⟩ = (.error .fileNotFound, 0)
  ∧ iter_frames_run ⟨true, 2, false, 30, 5⟩ = (.error .openFailed, 0) :=
  iter_frames_validation true true 2 0 30 5 (by norm_num) (by norm_num)

/-- Claim C10: the code contradicts its own tests here.  With native rate
30 and `fps_out = 1000` (a case test_iter_frames_large_fps_ratio expects
to succeed) the sampling divisor `int(round(30/1000))` is 0, and
iterating the generator raises ZeroDivisionError on the first decoded
frame instead of never raising. -/
theorem iter_frames_interval_zero_bug :
    frameInterval 30 1000 = 0
  ∧ iter_frames_run ⟨true, 1000, true, 30, 3⟩ = (.error .zeroDivision, 1) := by
  have h : frameInterval 30 1000 = 0 := by
    norm_num [frameInterval, origFps, pyRound]
  exact ⟨h, by simp [iter_frames_run, h]⟩

/-- Counterexample to claim C5 as stated: for the degenerate (empty)
frame, the `ValueError` raised by the emptiness check is caught by the
blanket `except` and re-raised as `RuntimeError("Prediction failed: ...")`
— the same exception type as a PredictionFailure, not a distinct
InvalidFrame error. -/
theorem predict_frame_errors_cx :
    (predict_frame ⟨false, 0⟩ (.ok [])).1
        = .error (.runtimeError "Prediction failed: Frame is empty or None")
  ∧ (predict_frame ⟨false, 0⟩ (.ok [])).1
        ≠ .error (.valueError "Frame is empty or None") := by
  constructor
  · simp [predict_frame, predict_frame_body, PyExc.msg]
  · simp [predict_frame, predict_frame_body, PyExc.msg]

/-- Claim C5 (amended: the degenerate-frame error is re-wrapped into the
same RuntimeError type as a PredictionFailure rather than surfacing as a
distinct error): a degenerate frame fails without invoking the model,
with the InvalidFrame message wrapped in the PredictionFailure error; a
failure of the forward evaluation surfaces as a PredictionFailure
carrying the underlying cause; a successful forward result is returned
untouched — nothing is silently swallowed. -/
theorem predict_frame_errors (f1 f2 : PyFrame) (fw : Except PyExc (List ℚ))
    (e : PyExc) (r : List ℚ)
    (h1 : f1.isNone = true ∨ f1.size = 0)
    (h2n : f2.isNone = false) (h2s : f2.size ≠ 0) :
    predict_frame f1 fw
        = (.error (.runtimeError "Prediction failed: Frame is empty or None"), false)
  ∧ predict_frame f2 (.error e)
        = (.error (.runtimeError ("Prediction failed: " ++ e.msg)), true)
  ∧ predict_frame f2 (.ok r) = (.ok r, true) := by
  refine ⟨?_, ?_, ?_⟩
  · simp [predict_frame, predict_frame_body, h1, PyExc.msg]
  · simp [predict_frame, predict_frame_body, h2n, h2s]
  · simp [predict_frame, predict_frame_body, h2n, h2s]

/-- Witness for C5 (amended) at an empty frame, a failing forward
evaluation and a successful one. -/
theorem predict_frame_errors_witness :
    predict_frame ⟨false, 0⟩ (Except.ok [])
        = (.error (.runtimeError "Prediction failed: Frame is empty or None"), false)
  ∧ predict_frame ⟨false, 5⟩ (.error (PyExc.valueError "boom"))
        = (.error (.runtimeError ("Prediction failed: " ++ (PyExc.valueError "boom").msg)), true)
  ∧ predict_frame ⟨false, 5⟩ (Except.ok [1]) = (.ok [1], true) :=
  predict_frame_errors ⟨false, 0⟩ ⟨false, 5⟩ (Except.ok [])
    (PyExc.valueError "boom") [1] (Or.inr rfl) rfl (by norm_num)

theorem bestPair_mem (qs : List (ℕ × ℚ)) : ∀ p, bestPair p qs ∈ p :: qs := by
  induction qs with
  | nil => intro p; simp [bestPair]
  | cons r rs ih =>
    intro p
    have h := ih (if p.2 < r.2 then r else p)
    have he : bestPair p (r :: rs) = bestPair (if p.2 < r.2 then r else p) rs := rfl
    rw [he]
    rcases List.mem_cons.mp h with h1 | h1
    · rw [h1]
      split
      · exact List.mem_cons_of_mem _ (List.mem_cons_self _ _)
      · exact List.mem_cons_self _ _
    · exact List.mem_cons_of_mem _ (List.mem_cons_of_mem _ h1)

theorem bestPair_eq_self (qs : List (ℕ × ℚ)) :
    ∀ p, (∀ r ∈ qs, ¬ p.2 < r.2) → bestPair p qs = p := by
  induction qs with
  | nil => intro p _; rfl
  | cons r rs ih =>
    intro p h
    have hr : ¬ p.2 < r.2 := h r (List.mem_cons_self _ _)
    have he : bestPair p (r :: rs) = bestPair (if p.2 < r.2 then r else p) rs := rfl
    rw [he, if_neg hr]
    exact ih p (fun x hx => h x (List.mem_cons_of_mem _ hx))

theorem sum_map_div (l : List ℚ) (s : ℚ) :
    (l.map (fun x => x / s)).sum = l.sum / s := by
  induction l with
  | nil => simp
  | cons a t ih => simp [ih, add_div]

theorem softmax_length (expf : ℚ → ℚ) (row : List ℚ) :
    (softmax expf row).length = row.length := by
  simp [softmax]

theorem softmax_sum (expf : ℚ → ℚ) (hexp : ∀ x, 0 < expf x) (row : List ℚ)
    (hne : row ≠ []) : (softmax expf row).sum = 1 := by
  have hs : 0 < (row.map expf).sum := by
    refine List.sum_pos _ ?_ (by simpa using hne)
    intro x hx
    rcases List.mem_map.mp hx with ⟨y, _, rfl⟩
    exact hexp y
  have hdef : softmax expf row
      = (row.map expf).map (fun x => x / (row.map expf).sum) := rfl
  rw [hdef, sum_map_div, div_self (ne_of_gt hs)]

theorem softmax_nonneg (expf : ℚ → ℚ) (hexp : ∀ x, 0 < expf x) (row : List ℚ) :
    ∀ x ∈ softmax expf row, 0 ≤ x := by
  intro x hx
  simp only [softmax] at hx
  rcases List.mem_map.mp hx with ⟨e, he, rfl⟩
  have hepos : 0 < e := by
    rcases List.mem_map.mp he with ⟨y, _, rfl⟩
    exact hexp y
  have hsnn : 0 ≤ (row.map expf).sum := by
    refine List.sum_nonneg ?_
    intro z hz
    rcases List.mem_map.mp hz with ⟨y, _, rfl⟩
    exact le_of_lt (hexp y)
  exact div_nonneg (le_of_lt hepos) hsnn

theorem snd_mem_of_mem_enum (l : List ℚ) (p : ℕ × ℚ) (h : p ∈ l.enum) :
    p.2 ∈ l := by
  have h2 : p.2 ∈ l.enum.map Prod.snd := List.mem_map_of_mem Prod.snd h
  rwa [List.enum_map_snd] at h2

theorem perm_cons_eraseFirst (b : ℕ × ℚ) (l : List (ℕ × ℚ)) (hb : b ∈ l) :
    List.Perm l (b :: eraseFirst l b) := by
  induction l with
  | nil => simp at hb
  | cons x xs ih =>
    by_cases hx : x = b
    · subst hx
      simp [eraseFirst]
    · have hbxs : b ∈ xs := by
        rcases List.mem_cons.mp hb with h1 | h1
        · exact absurd h1.symm hx
        · exact h1
      have he : eraseFirst (x :: xs) b = x :: eraseFirst xs b := by
        simp [eraseFirst, hx]
      rw [he]
      exact ((ih hbxs).cons x).trans (List.Perm.swap b x _)

theorem eraseFirst_subset (b : ℕ × ℚ) (l : List (ℕ × ℚ)) (hb : b ∈ l) :
    ∀ p ∈ eraseFirst l b, p ∈ l := by
  intro p hp
  exact (perm_cons_eraseFirst b l hb).symm.subset (List.mem_cons_of_mem _ hp)

theorem length_eraseFirst (b : ℕ × ℚ) (l : List (ℕ × ℚ)) (hb : b ∈ l) :
    (eraseFirst l b).length + 1 = l.length := by
  have h := (perm_cons_eraseFirst b l hb).length_eq
  simpa using h.symm

theorem sum_topk_le : ∀ (k : ℕ) (l : List (ℕ × ℚ)), (∀ p ∈ l, 0 ≤ p.2) →
    ((topk k l).map Prod.snd).sum ≤ (l.map Prod.snd).sum := by
  intro k
  induction k with
  | zero =>
    intro l h
    simp only [topk, List.map_nil, List.sum_nil]
    refine List.sum_nonneg ?_
    intro x hx
    rcases List.mem_map.mp hx with ⟨p, hp, rfl⟩
    exact h p hp
  | succ k ih =>
    intro l h
    cases l with
    | nil => simp [topk]
    | cons q qs =>
      have hb : bestPair q qs ∈ q :: qs := bestPair_mem qs q
      have hperm : List.Perm (q :: qs)
          (bestPair q qs :: eraseFirst (q :: qs) (bestPair q qs)) :=
        perm_cons_eraseFirst _ _ hb
      have hsum : ((q :: qs).map Prod.snd).sum
          = (bestPair q qs).2 + ((eraseFirst (q :: qs) (bestPair q qs)).map Prod.snd).sum := by
        have := (hperm.map Prod.snd).sum_eq
        simpa using this
      have herased : ∀ p ∈ eraseFirst (q :: qs) (bestPair q qs), 0 ≤ p.2 :=
        fun p hp => h p (eraseFirst_subset _ _ hb p hp)
      have hih := ih (eraseFirst (q :: qs) (bestPair q qs)) herased
      have he : topk (k + 1) (q :: qs)
          = bestPair q qs :: topk k (eraseFirst (q :: qs) (bestPair q qs)) := rfl
      rw [he, List.map_cons, List.sum_cons, hsum]
      exact add_le_add_left hih _

theorem topk_perm : ∀ (k : ℕ) (l : List (ℕ × ℚ)), l.length ≤ k →
    List.Perm (topk k l) l := by
  intro k
  induction k with
  | zero =>
    intro l h
    have hl : l = [] := List.length_eq_zero.mp (Nat.le_zero.mp h)
    subst hl
    simp [topk]
  | succ k ih =>
    intro l h
    cases l with
    | nil => simp [topk]
    | cons q qs =>
      have hb : bestPair q qs ∈ q :: qs := bestPair_mem qs q
      have hlen : (eraseFirst (q :: qs) (bestPair q qs)).length ≤ k := by
        have hl := length_eraseFirst _ _ hb
        simp only [List.length_cons] at hl h
        omega
      have ihp := ih _ hlen
      have he : topk (k + 1) (q :: qs)
          = bestPair q qs :: topk k (eraseFirst (q :: qs) (bestPair q qs)) := rfl
      rw [he]
      exact (ihp.cons _).trans (perm_cons_eraseFirst _ _ hb).symm

theorem topk_sum_const (a : ℚ) : ∀ (k : ℕ) (l : List (ℕ × ℚ)),
    (∀ p ∈ l, p.2 = a) →
    ((topk k l).map Prod.snd).sum = (min k l.length : ℕ) * a := by
  intro k
  induction k with
  | zero => intro l _; simp [topk]
  | succ k ih =>
    intro l h
    cases l with
    | nil => simp [topk]
    | cons q qs =>
      have hbest : bestPair q qs = q := by
        refine bestPair_eq_self qs q ?_
        intro r hr
        rw [h q (List.mem_cons_self _ _), h r (List.mem_cons_of_mem _ hr)]
        exact lt_irrefl a
      have he : topk (k + 1) (q :: qs)
          = bestPair q qs :: topk k (eraseFirst (q :: qs) (bestPair q qs)) := rfl
      have hef : eraseFirst (q :: qs) q = qs := by simp [eraseFirst]
      rw [he, hbest, hef, List.map_cons, List.sum_cons]
      rw [ih qs (fun p hp => h p (List.mem_cons_of_mem _ hp)),
        h q (List.mem_cons_self _ _)]
      simp only [List.length_cons, Nat.succ_min_succ]
      push_cast
      ring

/-- Counterexample to claim C6 as stated: the per-frame result keeps only
the top `min(top_k, C)` of the C softmax probabilities, so its entries
need not sum to 1.  At 14 classes with equal logits (where the real
softmax is exactly uniform, `e^0 = 1`) and the default `top_k = 3`, the
returned entries sum to 3/14, which is not within 1e-4 of 1. -/
theorem predict_batch_sum_cx :
    (predict_batch (fun _ => 1) [List.replicate 14 0] 3).map
        (fun r => (r.map Prod.snd).sum) = [3/14]
  ∧ ¬ (|(3 : ℚ)/14 - 1| ≤ 1/10000) := by
  constructor
  · have hsm : softmax (fun _ => (1:ℚ)) (List.replicate 14 0)
        = List.replicate 14 (1/14) := by
      simp [softmax, List.map_replicate, List.sum_replicate, nsmul_eq_mul]
      norm_num
    have hall : ∀ p ∈ (List.replicate 14 ((1:ℚ)/14)).enum, p.2 = 1/14 := by
      intro p hp
      have := snd_mem_of_mem_enum _ p hp
      exact List.eq_of_mem_replicate this
    have hlen : (List.replicate 14 ((1:ℚ)/14)).enum.length = 14 := by
      rw [List.enum_length, List.length_replicate]
    have hmin : min 3 14 = 3 := by norm_num
    have hpb : predict_batch (fun _ => (1:ℚ)) [List.replicate 14 0] 3
        = [topk (min 3 14) (List.replicate 14 ((1:ℚ)/14)).enum] := by
      rw [predict_batch, if_neg (by simp)]
      simp only [List.map_cons, List.map_nil, hsm, List.length_replicate]
    rw [hpb, hmin]
    simp only [List.map_cons, List.map_nil]
    rw [topk_sum_const (1/14) 3 _ hall, hlen, hmin]
    norm_num
  · have habs : |(3 : ℚ)/14 - 1| = 11/14 := by
      rw [abs_of_neg (by norm_num)]
      norm_num
    rw [habs]
    norm_num

/-- Claim C6 (amended: the entries of each returned vector are the top
`min(top_k, C)` softmax probabilities, so they sum to at most 1, with
equality guaranteed only when `top_k` covers all C classes): an empty
batch returns an empty list, a batch of N rows returns exactly N results
in input order, each result is the top-k truncation of its row's softmax,
its entries sum to at most 1, and when `top_k ≥ C` they sum to exactly
1. -/
theorem predict_batch_spec (expf : ℚ → ℚ) (rows : List (List ℚ))
    (k kf i : ℕ) (row : List ℚ) (res resf : List (ℕ × ℚ))
    (hexp : ∀ x, 0 < expf x)
    (hrow : rows[i]? = some row) (hne : row ≠ [])
    (hres : (predict_batch expf rows k)[i]? = some res)
    (hresf : (predict_batch expf rows kf)[i]? = some resf)
    (hkf : row.length ≤ kf) :
    predict_batch expf [] k = []
  ∧ (predict_batch expf rows k).length = rows.length
  ∧ res = topk (min k row.length) (softmax expf row).enum
  ∧ (res.map Prod.snd).sum ≤ 1
  ∧ (resf.map Prod.snd).sum = 1 := by
  have hrne : rows ≠ [] := by
    intro hnil
    rw [hnil] at hrow
    simp at hrow
  have hres_eq : ∀ m : ℕ, ∀ r : List (ℕ × ℚ), (predict_batch expf rows m)[i]? = some r →
      r = topk (min m row.length) (softmax expf row).enum := by
    intro m r hr
    rw [predict_batch, if_neg hrne, List.getElem?_map, hrow] at hr
    simp only [Option.map_some] at hr
    have h2 := Option.some.inj hr
    simp only [softmax_length] at h2
    exact h2.symm
  have hresv := hres_eq k res hres
  have hresfv := hres_eq kf resf hresf
  have hnn : ∀ p ∈ (softmax expf row).enum, 0 ≤ p.2 := by
    intro p hp
    exact softmax_nonneg expf hexp row p.2 (snd_mem_of_mem_enum _ p hp)
  have htot : ((softmax expf row).enum.map Prod.snd).sum = 1 := by
    rw [List.enum_map_snd]
    exact softmax_sum expf hexp row hne
  refine ⟨by simp [predict_batch], ?_, hresv, ?_, ?_⟩
  · rw [predict_batch, if_neg hrne]
    simp
  · rw [hresv]
    calc ((topk (min k row.length) (softmax expf row).enum).map Prod.snd).sum
        ≤ ((softmax expf row).enum.map Prod.snd).sum :=
          sum_topk_le _ _ hnn
      _ = 1 := htot
  · rw [hresfv]
    have hlenle : (softmax expf row).enum.length ≤ min kf row.length := by
      rw [List.enum_length, softmax_length]
      omega
    have hperm := topk_perm (min kf row.length) (softmax expf row).enum hlenle
    rw [(hperm.map Prod.snd).sum_eq]
    exact htot

/-- Witness for C6 (amended) at two equal logits, `top_k = 1` and
`top_k = 5`. -/
theorem predict_batch_spec_witness :
    predict_batch (fun _ => (1:ℚ)) [] 1 = []
  ∧ (predict_batch (fun _ => (1:ℚ)) [[0, 0]] 1).length = [[0, 0]].length
  ∧ [((0:ℕ), (1:ℚ)/2)] = topk (min 1 [(0:ℚ), 0].length) (softmax (fun _ => (1:ℚ)) [0, 0]).enum
  ∧ (([((0:ℕ), (1:ℚ)/2)].map Prod.snd).sum ≤ 1)
  ∧ (([((0:ℕ), (1:ℚ)/2), (1, 1/2)].map Prod.snd).sum = 1) := by
  have hsm : softmax (fun _ => (1:ℚ)) [0, 0] = [1/2, 1/2] := by
    simp [softmax]
    norm_num
  have henum : ([(1:ℚ)/2, 1/2]).enum = [((0:ℕ), (1:ℚ)/2), (1, 1/2)] := by
    simp [List.enum, List.enumFrom]
  have h1 : (predict_batch (fun _ => (1:ℚ)) [[0, 0]] 1)[0]? = some [((0:ℕ), (1:ℚ)/2)] := by
    rw [predict_batch, if_neg (by simp)]
    simp only [List.map_cons, List.map_nil, hsm, henum]
    simp [topk, bestPair, eraseFirst, lt_self_iff_false]
  have h2 : (predict_batch (fun _ => (1:ℚ)) [[0, 0]] 5)[0]? = some [((0:ℕ), (1:ℚ)/2), (1, 1/2)] := by
    rw [predict_batch, if_neg (by simp)]
    simp only [List.map_cons, List.map_nil, hsm, henum]
    simp [topk, bestPair, eraseFirst, lt_self_iff_false]
  exact predict_batch_spec (fun _ => (1:ℚ)) [[0, 0]] 1 5 0 [0, 0]
    [((0:ℕ), (1:ℚ)/2)] [((0:ℕ), (1:ℚ)/2), (1, 1/2)]
    (fun _ => by norm_num) rfl (by simp) h1 h2 (by simp)

end TerraCivitas
